import Mathlib

/-!
Verification of the libcompose CLI command layer (`cli/app/app.go`).

The file shallowly embeds the command handlers of `app.go`:
the project handle (`project.APIProject`) is modelled as an oracle
giving each orchestration operation's result, the CLI context as a
record of positional arguments and flag accessors, and each handler as
a pure function returning the list of orchestration calls it issued,
the text it printed, and its outcome (normal return, `logrus.Fatal`,
`os.Exit`, or a runtime panic).
-/

set_option autoImplicit false

deriving instance DecidableEq for Except

namespace Compose

/-- Whitespace as recognised by Go's `fmt` scanner (`isSpace` in
`fmt/scan.go`): the characters the confirmation-prompt `fmt.Scanln`
skips between operands. -/
def goIsSpace (c : Char) : Bool :=
  let n := c.toNat
  (0x09 ≤ n && n ≤ 0x0d) || n == 0x20 || n == 0x85 || n == 0xa0 ||
  n == 0x1680 || (0x2000 ≤ n && n ≤ 0x200a) || n == 0x2028 ||
  n == 0x2029 || n == 0x202f || n == 0x205f || n == 0x3000

/-- Cuts a character list into maximal runs of non-space characters;
`acc` holds the (reversed) run being read. -/
def scanWordsAux : List Char → List Char → List String
  | [], acc => if acc = [] then [] else [String.mk acc.reverse]
  | c :: rest, acc =>
    if goIsSpace c then
      if acc = [] then scanWordsAux rest []
      else String.mk acc.reverse :: scanWordsAux rest []
    else scanWordsAux rest (c :: acc)

/-- The whitespace-separated tokens of one input line. -/
def scanWords (line : String) : List String :=
  scanWordsAux line.data []

/-- The behaviour of `fmt.Scanln(&answer)` (with `answer : string`) on one
line of standard input: succeeds with the single whitespace-delimited
token of the line; an empty (or all-blank) line yields the
`unexpected newline` error, and a line holding more than one token
yields the `expected newline` error. -/
def scanlnWord (line : String) : Except String String :=
  match scanWords line with
  | [w] => .ok w
  | [] => .error "unexpected newline"
  | _ => .error "expected newline"

/-- Splits a character list at the first `=`, as `strings.SplitN(s, "=", 2)`
does: `none` when no `=` occurs. -/
def splitEqAux : List Char → Option (List Char × List Char)
  | [] => none
  | c :: rest =>
    if c = '=' then some ([], rest)
    else (splitEqAux rest).map (fun p => (c :: p.1, p.2))

/-- `strings.SplitN(s, "=", 2)`: the whole string when it holds no `=`,
otherwise the part before the first `=` and everything after it. -/
def splitEq2 (s : String) : List String :=
  match splitEqAux s.data with
  | none => [s]
  | some p => [String.mk p.1, String.mk p.2]

/-- The numeric value of a decimal digit string. -/
def digitsVal (cs : List Char) : Nat :=
  cs.foldl (fun acc d => acc * 10 + (d.toNat - ('0').toNat)) 0

/-- The numeric reading `strconv.Atoi` gives a string: an optional sign
followed by at least one decimal digit; anything else is a syntax
violation. -/
def goAtoiNum (s : String) : Option Int :=
  match s.data with
  | [] => none
  | c :: rest =>
    if c = '-' then
      if rest ≠ [] && rest.all Char.isDigit then some (-(digitsVal rest : Int)) else none
    else if c = '+' then
      if rest ≠ [] && rest.all Char.isDigit then some (digitsVal rest : Int) else none
    else
      if s.data.all Char.isDigit then some (digitsVal s.data : Int) else none

/-- `strconv.Atoi`: the numeric reading when it stays in the signed 64-bit
`int` range; a syntax violation yields `ErrSyntax` and a value outside
the range yields `ErrRange`, both non-nil errors carrying Go's
`NumError` message. -/
def goAtoi (s : String) : Except String Int :=
  match goAtoiNum s with
  | none => .error ("strconv.Atoi: parsing \"" ++ s ++ "\": invalid syntax")
  | some v =>
    if -(2 ^ 63) ≤ v ∧ v < 2 ^ 63 then .ok v
    else .error ("strconv.Atoi: parsing \"" ++ s ++ "\": value out of range")

/-- Assignment `m[k] = v` on a Go `map[string]int`, represented as an
association list with at most one binding per key: the old binding for
`k`, if any, is replaced. -/
def mapInsert (m : List (String × Int)) (k : String) (v : Int) : List (String × Int) :=
  (m.filter (fun p => p.1 ≠ k)) ++ [(k, v)]

/-- Lookup in the association-list representation of a Go map. -/
def mapLookup (m : List (String × Int)) (k : String) : Option Int :=
  (m.find? (fun p => p.1 = k)).map Prod.snd

/-- `options.Create`: the create-related flags forwarded by `ProjectCreate`
and `ProjectUp`. -/
structure CreateOpts where
  noRecreate : Bool
  forceRecreate : Bool
  noBuild : Bool
  deriving DecidableEq, Repr

/-- `options.Up`: wraps the create options. -/
structure UpOpts where
  create : CreateOpts
  deriving DecidableEq, Repr

/-- The read-only view of `cli.Context` the handlers use: positional
arguments plus typed flag accessors. -/
structure Context where
  args : List String
  boolFlag : String → Bool
  intFlag : String → Int

/-- One call issued against the project handle (`project.APIProject`),
with the arguments the handler passed. -/
inductive ProjCall where
  | up (opts : UpOpts) (services : List String)
  | log (follow : Bool) (services : List String)
  | stop (timeout : Int) (services : List String)
  | start (services : List String)
  | restart (timeout : Int) (services : List String)
  | run (service : String) (command : List String)
  | listStoppedContainers (services : List String)
  | delete (removeVolume : Bool) (services : List String)
  | scale (timeout : Int) (servicesScale : List (String × Int))
  deriving DecidableEq, Repr

/-- How a handler's control flow ends: a normal return, an immediate
process termination through `logrus.Fatal`, an explicit `os.Exit`
(the run handler), or a Go runtime panic. -/
inductive Outcome where
  | ok
  | fatal (msg : String)
  | exit (code : Int)
  | panicked (msg : String)
  deriving DecidableEq, Repr

/-- Everything observable about one handler invocation: the orchestration
calls it made in order, the lines it printed, and how it ended. -/
structure HandlerRun where
  calls : List ProjCall
  output : List String
  outcome : Outcome
  deriving DecidableEq, Repr

/-- The orchestration collaborator as an oracle: for each operation the
handlers use, the result the project handle would return.  An `Option
String` result is the returned `error` (`none` = nil); fallible
value-returning operations use `Except`. -/
structure ProjectOracle where
  up : UpOpts → List String → Option String
  stop : Int → List String → Option String
  start : List String → Option String
  restart : Int → List String → Option String
  run : String → List String → Except String Int
  listStoppedContainers : List String → Except String (List String)
  delete : Bool → List String → Option String
  scale : Int → List (String × Int) → Option String

/-- `ProjectStop`: calls `p.Stop(c.Int("timeout"), c.Args()...)`, fatal on
error. -/
def projectStop (p : ProjectOracle) (c : Context) : HandlerRun :=
  let t := c.intFlag "timeout"
  match p.stop t c.args with
  | some e => ⟨[.stop t c.args], [], .fatal e⟩
  | none => ⟨[.stop t c.args], [], .ok⟩

/-- `ProjectStart`: calls `p.Start(c.Args()...)`, fatal on error. -/
def projectStart (p : ProjectOracle) (c : Context) : HandlerRun :=
  match p.start c.args with
  | some e => ⟨[.start c.args], [], .fatal e⟩
  | none => ⟨[.start c.args], [], .ok⟩

/-- `ProjectRestart`: calls `p.Restart(c.Int("timeout"), c.Args()...)`,
fatal on error. -/
def projectRestart (p : ProjectOracle) (c : Context) : HandlerRun :=
  let t := c.intFlag "timeout"
  match p.restart t c.args with
  | some e => ⟨[.restart t c.args], [], .fatal e⟩
  | none => ⟨[.restart t c.args], [], .ok⟩

/-- `ProjectRun`: when `len(c.Args()) == 1` it is fatal with
`No service specified`; otherwise `c.Args()[0]` is the service,
`c.Args()[1:]` the command, and on success the process exits with the
child's exit code.  On an empty argument list, `c.Args()[0]` is an
out-of-range slice index: a Go runtime panic. -/
def projectRun (p : ProjectOracle) (c : Context) : HandlerRun :=
  if c.args.length = 1 then ⟨[], [], .fatal "No service specified"⟩
  else
    match c.args with
    | [] => ⟨[], [], .panicked "runtime error: index out of range"⟩
    | serviceName :: commandParts =>
      match p.run serviceName commandParts with
      | .error e => ⟨[.run serviceName commandParts], [], .fatal e⟩
      | .ok exitCode => ⟨[.run serviceName commandParts], [], .exit exitCode⟩

/-- The confirmation prompt printed by `ProjectDelete`. -/
def deletePrompt (stoppedContainers : List String) : String :=
  "Going to remove " ++ String.intercalate ", " stoppedContainers ++
    "\nAre you sure? [yN]\n"

/-- The trailing part of `ProjectDelete` once confirmation (if any) has
passed: build `options.Delete` from the `v` flag and call `p.Delete`,
fatal on error. -/
def projectDeleteCall (p : ProjectOracle) (c : Context)
    (calls : List ProjCall) (out : List String) : HandlerRun :=
  let rv := c.boolFlag "v"
  match p.delete rv c.args with
  | some e => ⟨calls ++ [.delete rv c.args], out, .fatal e⟩
  | none => ⟨calls ++ [.delete rv c.args], out, .ok⟩

/-- The result `fmt.Scanln(&answer)` leaves in `err`/`answer`: a failure
of the underlying read is reported as is, and a successfully read line
goes through the scanner's single-token parse. -/
def scanAnswer (stdin : Except String String) : Except String String :=
  match stdin with
  | .error e => .error e
  | .ok line => scanlnWord line

/-- `ProjectDelete`: list the stopped containers (fatal on error); if none,
print `No stopped containers` and return.  Without `force`, print the
candidates and read an answer with `fmt.Scanln`; a scan or read failure
is fatal, and any answer other than `y` or `Y` returns silently.
`stdin` is the line offered on standard input, or a read failure. -/
def projectDelete (p : ProjectOracle) (c : Context)
    (stdin : Except String String) : HandlerRun :=
  match p.listStoppedContainers c.args with
  | .error e => ⟨[.listStoppedContainers c.args], [], .fatal e⟩
  | .ok stoppedContainers =>
    let lsCall := ProjCall.listStoppedContainers c.args
    if stoppedContainers.length = 0 then
      ⟨[lsCall], ["No stopped containers"], .ok⟩
    else if !c.boolFlag "force" then
      let out := [deletePrompt stoppedContainers]
      match scanAnswer stdin with
      | .error e => ⟨[lsCall], out, .fatal e⟩
      | .ok answer =>
        if answer ≠ "y" && answer ≠ "Y" then ⟨[lsCall], out, .ok⟩
        else projectDeleteCall p c [lsCall] out
    else projectDeleteCall p c [lsCall] []

/-- The loop body of `ProjectScale` over the positional arguments:
split each token at `=` (fatal when no `=` occurs), parse the count with
`strconv.Atoi` (fatal on error), and assign `servicesScale[name] = count`. -/
def buildScaleMap : List String → List (String × Int) →
    Except String (List (String × Int))
  | [], m => .ok m
  | arg :: rest, m =>
    match splitEq2 arg with
    | [name, countStr] =>
      match goAtoi countStr with
      | .error err => .error ("Invalid scale parameter: " ++ err)
      | .ok count => buildScaleMap rest (mapInsert m name count)
    | _ => .error ("Invalid scale parameter: " ++ arg)

/-- `ProjectScale`: build the scale map from the positional `name=count`
tokens (fatal on a malformed token), then call
`p.Scale(c.Int("timeout"), servicesScale)`, fatal on error. -/
def projectScale (p : ProjectOracle) (c : Context) : HandlerRun :=
  match buildScaleMap c.args [] with
  | .error e => ⟨[], [], .fatal e⟩
  | .ok servicesScale =>
    let t := c.intFlag "timeout"
    match p.scale t servicesScale with
    | some e => ⟨[.scale t servicesScale], [], .fatal e⟩
    | none => ⟨[.scale t servicesScale], [], .ok⟩

/-- The `options.Up` value `ProjectUp` builds from the create flags. -/
def upOptsOf (c : Context) : UpOpts :=
  ⟨⟨c.boolFlag "no-recreate", c.boolFlag "force-recreate", c.boolFlag "no-build"⟩⟩

/-- Which event the signal-watching goroutine's `select` observes first
during the attached phase of `ProjectUp`: an external
SIGINT/SIGTERM, or the log task's result on the error channel. -/
inductive UpEvent where
  | signal
  | logResult (err : Option String)
  deriving DecidableEq, Repr

/-- One run of the up lifecycle coordinator: the orchestration calls, the
printed lines, how many values were sent on the `cleanupDone`
completion channel, whether the log task's fatal branch
(`logrus.Fatal` on a non-nil log error) fired, and the outcome. -/
structure UpRun where
  calls : List ProjCall
  output : List String
  completions : Nat
  logFatalFired : Bool
  outcome : Outcome
  deriving DecidableEq, Repr

/-- `ProjectUp`: call `p.Up` with the create-flag options (fatal on
error); in detached mode (`d` flag) return at once.  Otherwise launch
the log task (`p.Log(true, c.Args()...)`, reporting on the error
channel) and the signal goroutine, whose `select` races the signal
channel against the error channel.  Signal first: print the notice, run
`ProjectStop` (its own fatal path terminates the process before
`cleanupDone <- true`), then signal completion.  Log result first:
fatal if it is a non-nil error, otherwise signal completion.  The
coordinator blocks on `<-cleanupDone` before returning. -/
def projectUp (p : ProjectOracle) (c : Context) (ev : UpEvent) : UpRun :=
  let opts := upOptsOf c
  match p.up opts c.args with
  | some e => ⟨[.up opts c.args], [], 0, false, .fatal e⟩
  | none =>
    if c.boolFlag "d" then ⟨[.up opts c.args], [], 0, false, .ok⟩
    else
      let pre := [ProjCall.up opts c.args, ProjCall.log true c.args]
      match ev with
      | .signal =>
        let s := projectStop p c
        let out := ["\nGracefully stopping...\n"] ++ s.output
        match s.outcome with
        | .fatal e => ⟨pre ++ s.calls, out, 0, false, .fatal e⟩
        | _ => ⟨pre ++ s.calls, out, 1, false, .ok⟩
      | .logResult (some e) => ⟨pre, [], 0, true, .fatal e⟩
      | .logResult none => ⟨pre, [], 1, false, .ok⟩

/-- How many of the listed calls are stop calls. -/
def stopCallCount (l : List ProjCall) : Nat :=
  (l.filter fun call => match call with | .stop _ _ => true | _ => false).length

/-- How many of the listed calls are delete calls. -/
def deleteCallCount (l : List ProjCall) : Nat :=
  (l.filter fun call => match call with | .delete _ _ => true | _ => false).length

/-- A scale token the handler rejects: no `=` separator, or a count
`strconv.Atoi` does not accept. -/
def malformedScaleToken (t : String) : Bool :=
  match splitEq2 t with
  | [_, countStr] => !(goAtoi countStr).isOk
  | _ => true

/-- The service-name part of a scale token. -/
def tokName (t : String) : Option String :=
  match splitEq2 t with
  | [name, _] => some name
  | _ => none

/-- The parsed count part of a scale token. -/
def tokCount (t : String) : Option Int :=
  match splitEq2 t with
  | [_, countStr] => (goAtoi countStr).toOption
  | _ => none

/-- The count carried by the last token of `args` whose name part is
`name`, the value the spec's last-wins overwrite semantics demands. -/
def lastCountFor (args : List String) (name : String) : Option Int :=
  ((args.filter fun t => tokName t = some name).getLast?).bind tokCount

/-- The first option when it holds a value, the second otherwise. -/
def optOr (a b : Option Int) : Option Int :=
  match a with
  | some v => some v
  | none => b

/-- A project oracle on which every operation succeeds; the stopped
containers listed for the delete handler are `["db_one"]`. -/
def okOracle : ProjectOracle where
  up := fun _ _ => none
  stop := fun _ _ => none
  start := fun _ => none
  restart := fun _ _ => none
  run := fun _ _ => .ok 0
  listStoppedContainers := fun _ => .ok ["db_one"]
  delete := fun _ _ => none
  scale := fun _ _ => none

/-- `okOracle`, but the query for stopped containers returns the empty
sequence. -/
def emptyStoppedOracle : ProjectOracle :=
  { okOracle with listStoppedContainers := fun _ => .ok [] }

/-- `okOracle`, but the stop operation fails. -/
def stopFailOracle : ProjectOracle :=
  { okOracle with stop := fun _ _ => some "stop failed" }

/-- A context with the given positional arguments, all boolean flags
unset, and a timeout flag of 10. -/
def mkCtx (args : List String) : Context :=
  ⟨args, fun _ => false, fun f => if f = "timeout" then 10 else 0⟩

/-- `mkCtx args`, but with the timeout flag set to `t`. -/
def mkCtxT (args : List String) (t : Int) : Context :=
  ⟨args, fun _ => false, fun f => if f = "timeout" then t else 0⟩

/-- C5: whenever the query for stopped containers succeeds with an empty
sequence, the delete handler prints `No stopped containers` and returns
normally having made only the listing call — the delete operation is
never invoked, whatever the force flag (or any other flag) holds. -/
theorem projectDelete_noStopped (p : ProjectOracle) (c : Context)
    (stdin : Except String String)
    (h : p.listStoppedContainers c.args = .ok []) :
    projectDelete p c stdin =
      ⟨[.listStoppedContainers c.args], ["No stopped containers"], .ok⟩ := by
  simp [projectDelete, h]

/-- Witness for C5 at a concrete oracle, context and input line. -/
theorem projectDelete_noStopped_witness :
    emptyStoppedOracle.listStoppedContainers [] = .ok [] ∧
    projectDelete emptyStoppedOracle (mkCtx []) (.ok "y") =
      ⟨[.listStoppedContainers []], ["No stopped containers"], .ok⟩ :=
  ⟨rfl, projectDelete_noStopped emptyStoppedOracle (mkCtx []) (.ok "y") rfl⟩

/-- C10: on an empty positional list the scale handler passes validation
and invokes the scale operation exactly once, with the empty map and
the timeout flag; its outcome is exactly the scale operation's. -/
theorem projectScale_emptyArgs (p : ProjectOracle) (c : Context)
    (h : c.args = []) :
    (projectScale p c).calls = [.scale (c.intFlag "timeout") []] ∧
    ((projectScale p c).outcome = .ok ↔ p.scale (c.intFlag "timeout") [] = none) := by
  rcases hs : p.scale (c.intFlag "timeout") [] with _ | e <;>
    simp [projectScale, h, buildScaleMap, hs]

/-- Witness for C10 at a concrete oracle and context. -/
theorem projectScale_emptyArgs_witness :
    (mkCtx []).args = [] ∧
    (projectScale okOracle (mkCtx [])).calls = [.scale 10 []] :=
  ⟨rfl, (projectScale_emptyArgs okOracle (mkCtx []) rfl).1⟩

/-- C4: with a single-element positional list — zero arguments beyond the
program name, the spec's reading of `len(c.Args()) == 1` — the run
handler terminates fatally with `No service specified`, making no call
to the run operation. -/
theorem projectRun_noService (p : ProjectOracle) (c : Context)
    (h : c.args.length = 1) :
    projectRun p c = ⟨[], [], .fatal "No service specified"⟩ := by
  simp [projectRun, h]

/-- Witness for C4 at a concrete oracle and context. -/
theorem projectRun_noService_witness :
    (mkCtx ["compose"]).args.length = 1 ∧
    projectRun okOracle (mkCtx ["compose"]) =
      ⟨[], [], .fatal "No service specified"⟩ :=
  ⟨rfl, projectRun_noService okOracle (mkCtx ["compose"]) rfl⟩

/-- C9 counterexample: two invocation contexts that differ only in the
timeout flag make the start handler behave identically, and the call it
issues carries no timeout component — the start handler does not
forward the context's timeout value. -/
theorem projectStart_timeout_dropped :
    (mkCtxT ["web"] 0).intFlag "timeout" ≠ (mkCtxT ["web"] 42).intFlag "timeout" ∧
    projectStart okOracle (mkCtxT ["web"] 0) =
      projectStart okOracle (mkCtxT ["web"] 42) ∧
    (projectStart okOracle (mkCtxT ["web"] 42)).calls = [.start ["web"]] :=
  ⟨by decide, rfl, rfl⟩

/-- C9 amended: the restart handler forwards the context's timeout flag
together with the positional service names, while the start handler
forwards only the service names — the consumed start operation takes no
timeout argument. -/
theorem startRestart_forwarding (p : ProjectOracle) (c : Context) :
    (projectStart p c).calls = [.start c.args] ∧
    (projectRestart p c).calls = [.restart (c.intFlag "timeout") c.args] := by
  constructor
  · rcases h : p.start c.args with _ | e <;> simp [projectStart, h]
  · rcases h : p.restart (c.intFlag "timeout") c.args with _ | e <;>
      simp [projectRestart, h]

/-- C6: in attached mode after a successful up, when the log task's result
arrives first and carries a nil error, exactly one completion is
signaled, the coordinator returns normally, and no stop call is ever
made. -/
theorem projectUp_logNilFirst (p : ProjectOracle) (c : Context)
    (hup : p.up (upOptsOf c) c.args = none) (hd : c.boolFlag "d" = false) :
    projectUp p c (.logResult none) =
      ⟨[.up (upOptsOf c) c.args, .log true c.args], [], 1, false, .ok⟩ ∧
    stopCallCount (projectUp p c (.logResult none)).calls = 0 := by
  have h1 : projectUp p c (.logResult none) =
      ⟨[.up (upOptsOf c) c.args, .log true c.args], [], 1, false, .ok⟩ := by
    simp [projectUp, hup, hd]
  exact ⟨h1, by rw [h1]; rfl⟩

/-- Witness for C6 at a concrete oracle and context. -/
theorem projectUp_logNilFirst_witness :
    okOracle.up (upOptsOf (mkCtx [])) [] = none ∧
    (mkCtx []).boolFlag "d" = false ∧
    projectUp okOracle (mkCtx []) (.logResult none) =
      ⟨[.up (upOptsOf (mkCtx [])) [], .log true []], [], 1, false, .ok⟩ :=
  ⟨rfl, rfl, (projectUp_logNilFirst okOracle (mkCtx []) rfl rfl).1⟩

/-- C1 counterexample: an execution in which the termination signal
arrives first but the stop operation fails makes exactly one stop call
and fires no log fatal, yet sends no completion signal — the
coordinator dies through the stop handler's fatal path before
`cleanupDone <- true`, so "exactly one completion signal" does not hold
of every signal-first execution. -/
theorem projectUp_signal_counterexample :
    stopFailOracle.up (upOptsOf (mkCtx [])) [] = none ∧
    (mkCtx []).boolFlag "d" = false ∧
    stopCallCount (projectUp stopFailOracle (mkCtx []) .signal).calls = 1 ∧
    (projectUp stopFailOracle (mkCtx []) .signal).logFatalFired = false ∧
    (projectUp stopFailOracle (mkCtx []) .signal).completions = 0 ∧
    (projectUp stopFailOracle (mkCtx []) .signal).outcome = .fatal "stop failed" :=
  ⟨rfl, rfl, rfl, rfl, rfl, rfl⟩

/-- C1 amended: in attached mode after a successful up, a termination
signal arriving before any log result triggers exactly one stop call
and the log-task fatal branch never fires; exactly one completion
signal is sent when the stop operation succeeds, while a failing stop
terminates the coordinator fatally with no completion signaled. -/
theorem projectUp_signalFirst (p : ProjectOracle) (c : Context)
    (hup : p.up (upOptsOf c) c.args = none) (hd : c.boolFlag "d" = false) :
    stopCallCount (projectUp p c .signal).calls = 1 ∧
    (projectUp p c .signal).logFatalFired = false ∧
    (p.stop (c.intFlag "timeout") c.args = none →
      (projectUp p c .signal).completions = 1 ∧
      (projectUp p c .signal).outcome = .ok) ∧
    (∀ e, p.stop (c.intFlag "timeout") c.args = some e →
      (projectUp p c .signal).completions = 0 ∧
      (projectUp p c .signal).outcome = .fatal e) := by
  rcases hs : p.stop (c.intFlag "timeout") c.args with _ | e <;>
    simp [projectUp, projectStop, hup, hd, hs, stopCallCount]

/-- Witness for the amended C1 at a concrete oracle and context. -/
theorem projectUp_signalFirst_witness :
    okOracle.up (upOptsOf (mkCtx [])) [] = none ∧
    (mkCtx []).boolFlag "d" = false ∧
    stopCallCount (projectUp okOracle (mkCtx []) .signal).calls = 1 :=
  ⟨rfl, rfl, (projectUp_signalFirst okOracle (mkCtx []) rfl rfl).1⟩

/-- C2 counterexample: with stopped containers present and the force flag
unset, the empty input line — which is neither `y` nor `Y` — does not
make the delete handler return normally: `fmt.Scanln` fails on it with
`unexpected newline` and the handler terminates fatally.  (The delete
operation is still not invoked.) -/
theorem projectDelete_emptyLine_fatal :
    "" ≠ "y" ∧ "" ≠ "Y" ∧
    projectDelete okOracle (mkCtx []) (.ok "") =
      ⟨[.listStoppedContainers []], [deletePrompt ["db_one"]],
        .fatal "unexpected newline"⟩ :=
  ⟨by decide, by decide, rfl⟩

/-- C2 amended: with stopped containers present and the force flag unset,
the delete handler never invokes the delete operation unless the
scanned answer is exactly `y` or `Y`; it returns normally whenever
`fmt.Scanln` yields any other single-token answer, and it terminates
fatally when the read fails or the line cannot be scanned as one token
(the empty line included). -/
theorem projectDelete_confirmAborts (p : ProjectOracle) (c : Context)
    (stdin : Except String String) (stopped : List String)
    (hls : p.listStoppedContainers c.args = .ok stopped)
    (hne : stopped ≠ [])
    (hforce : c.boolFlag "force" = false)
    (hy : scanAnswer stdin ≠ .ok "y") (hY : scanAnswer stdin ≠ .ok "Y") :
    deleteCallCount (projectDelete p c stdin).calls = 0 ∧
    (∀ w, scanAnswer stdin = .ok w →
      projectDelete p c stdin =
        ⟨[.listStoppedContainers c.args], [deletePrompt stopped], .ok⟩) ∧
    (∀ e, scanAnswer stdin = .error e →
      projectDelete p c stdin =
        ⟨[.listStoppedContainers c.args], [deletePrompt stopped], .fatal e⟩) := by
  rcases hw : scanAnswer stdin with e | w
  · simp [projectDelete, hls, hne, hforce, hw, deleteCallCount]
  · have hwy : w ≠ "y" := fun h => hy (h ▸ hw)
    have hwY : w ≠ "Y" := fun h => hY (h ▸ hw)
    simp [projectDelete, hls, hne, hforce, hw, hwy, hwY, deleteCallCount]

/-- Witness for the amended C2 at a concrete oracle, context and input
line. -/
theorem projectDelete_confirmAborts_witness :
    okOracle.listStoppedContainers [] = .ok ["db_one"] ∧
    ["db_one"] ≠ ([] : List String) ∧
    (mkCtx []).boolFlag "force" = false ∧
    scanAnswer (.ok "n") ≠ .ok "y" ∧
    scanAnswer (.ok "n") ≠ .ok "Y" ∧
    deleteCallCount (projectDelete okOracle (mkCtx []) (.ok "n")).calls = 0 :=
  ⟨rfl, by decide, rfl, by decide, by decide,
    (projectDelete_confirmAborts okOracle (mkCtx []) (.ok "n") ["db_one"]
      rfl (by decide) rfl (by decide) (by decide)).1⟩

/-- Unfolding equation for the scale-token loop. -/
theorem buildScaleMap_cons (a : String) (rest : List String)
    (m : List (String × Int)) :
    buildScaleMap (a :: rest) m =
      match splitEq2 a with
      | [name, countStr] =>
        match goAtoi countStr with
        | .error err => .error ("Invalid scale parameter: " ++ err)
        | .ok count => buildScaleMap rest (mapInsert m name count)
      | _ => .error ("Invalid scale parameter: " ++ a) := rfl

/-- `strings.SplitN(s, "=", 2)` returns one or two pieces. -/
theorem splitEq2_shape (s : String) :
    (∃ x, splitEq2 s = [x]) ∨ ∃ x y, splitEq2 s = [x, y] := by
  unfold splitEq2
  rcases splitEqAux s.data with _ | ⟨a, b⟩ <;> simp

/-- The scale-token loop on a head token with no `=`. -/
theorem buildScaleMap_cons_noEq (a x : String) (rest : List String)
    (m : List (String × Int)) (hsp : splitEq2 a = [x]) :
    buildScaleMap (a :: rest) m =
      .error ("Invalid scale parameter: " ++ a) := by
  rw [buildScaleMap_cons, hsp]

/-- The scale-token loop on a head token of the form `name=countStr`. -/
theorem buildScaleMap_cons_eq (a n cs : String) (rest : List String)
    (m : List (String × Int)) (hsp : splitEq2 a = [n, cs]) :
    buildScaleMap (a :: rest) m =
      match goAtoi cs with
      | .error err => .error ("Invalid scale parameter: " ++ err)
      | .ok count => buildScaleMap rest (mapInsert m n count) := by
  rw [buildScaleMap_cons, hsp]

/-- A malformed token anywhere in the argument list makes the scale-token
loop fail, whatever map has been accumulated. -/
theorem buildScaleMap_malformed :
    ∀ (args : List String) (m : List (String × Int)),
      (∃ t ∈ args, malformedScaleToken t = true) →
      ∃ e, buildScaleMap args m = .error e := by
  intro args
  induction args with
  | nil => rintro m ⟨t, ht, -⟩; exact absurd ht (List.not_mem_nil t)
  | cons a rest ih =>
    rintro m ⟨t, ht, hmal⟩
    rcases splitEq2_shape a with ⟨x, hsp⟩ | ⟨n, cs, hsp⟩
    · exact ⟨_, buildScaleMap_cons_noEq a x rest m hsp⟩
    · rw [buildScaleMap_cons_eq a n cs rest m hsp]
      rcases hg : goAtoi cs with err | v
      · exact ⟨_, rfl⟩
      · apply ih
        rcases List.mem_cons.mp ht with rfl | htr
        · exfalso
          unfold malformedScaleToken at hmal
          rw [hsp] at hmal
          simp [hg, Except.isOk, Except.toBool] at hmal
        · exact ⟨t, htr, hmal⟩

/-- C3: a positional list holding a malformed token — one with no `=`
separator, or a count `strconv.Atoi` rejects — makes the scale handler
terminate fatally during validation, with zero calls against the
project handle (in particular the scale operation is never invoked). -/
theorem projectScale_malformed (p : ProjectOracle) (c : Context)
    (h : ∃ t ∈ c.args, malformedScaleToken t = true) :
    (projectScale p c).calls = [] ∧
    ∃ e, (projectScale p c).outcome = .fatal e := by
  obtain ⟨e, he⟩ := buildScaleMap_malformed c.args [] h
  simp [projectScale, he]

/-- Witness for C3 at a concrete oracle and argument list. -/
theorem projectScale_malformed_witness :
    (∃ t ∈ (mkCtx ["web", "db=x"]).args, malformedScaleToken t = true) ∧
    (projectScale okOracle (mkCtx ["web", "db=x"])).calls = [] :=
  ⟨by decide,
    (projectScale_malformed okOracle (mkCtx ["web", "db=x"]) (by decide)).1⟩

/-- The scale-token loop on a head token whose count `strconv.Atoi`
rejects. -/
theorem buildScaleMap_cons_badCount (a n cs err : String) (rest : List String)
    (m : List (String × Int)) (hsp : splitEq2 a = [n, cs])
    (hg : goAtoi cs = .error err) :
    buildScaleMap (a :: rest) m =
      .error ("Invalid scale parameter: " ++ err) := by
  rw [buildScaleMap_cons, hsp]
  simp [hg]

/-- The scale-token loop on a head token whose count parses: the loop
continues with the overwriting assignment done. -/
theorem buildScaleMap_cons_okCount (a n cs : String) (v : Int)
    (rest : List String) (m : List (String × Int))
    (hsp : splitEq2 a = [n, cs]) (hg : goAtoi cs = .ok v) :
    buildScaleMap (a :: rest) m = buildScaleMap rest (mapInsert m n v) := by
  rw [buildScaleMap_cons, hsp]
  simp [hg]

/-- A value `strconv.Atoi` accepts lies in the signed 64-bit range. -/
theorem goAtoi_ok_range (s : String) (v : Int) (h : goAtoi s = .ok v) :
    -(2 ^ 63) ≤ v ∧ v < 2 ^ 63 := by
  unfold goAtoi at h
  split at h
  · exact absurd h (by simp)
  · split at h
    · cases h
      assumption
    · exact absurd h (by simp)

/-- Every count placed in the accumulated map by the scale-token loop —
beyond those already there — comes out of a successful `Atoi` parse, so
all the map's counts stay in the signed 64-bit range. -/
theorem buildScaleMap_range :
    ∀ (args : List String) (m0 m : List (String × Int)),
      (∀ q ∈ m0, -(2 ^ 63) ≤ q.2 ∧ q.2 < 2 ^ 63) →
      buildScaleMap args m0 = .ok m →
      ∀ q ∈ m, -(2 ^ 63) ≤ q.2 ∧ q.2 < 2 ^ 63 := by
  intro args
  induction args with
  | nil =>
    intro m0 m h0 hb
    cases hb
    exact h0
  | cons a rest ih =>
    intro m0 m h0 hb
    rcases splitEq2_shape a with ⟨x, hsp⟩ | ⟨n, cs, hsp⟩
    · rw [buildScaleMap_cons_noEq a x rest m0 hsp] at hb
      cases hb
    · rcases hg : goAtoi cs with err | v
      · rw [buildScaleMap_cons_badCount a n cs err rest m0 hsp hg] at hb
        cases hb
      · rw [buildScaleMap_cons_okCount a n cs v rest m0 hsp hg] at hb
        refine ih (mapInsert m0 n v) m ?_ hb
        intro q hq
        rcases List.mem_append.mp hq with hq1 | hq2
        · exact h0 q (List.mem_of_mem_filter hq1)
        · have hqv : q = (n, v) := by simpa using hq2
          subst hqv
          exact goAtoi_ok_range cs v hg

/-- C8 counterexample: the argument list `["web=-1"]` passes validation
and reaches the scale call with a stored count of `-1` — a negative
integer, so the counts the handler accepts are not all non-negative. -/
theorem projectScale_negative_count :
    (projectScale okOracle (mkCtxT ["web=-1"] 10)).calls =
      [.scale 10 [("web", -1)]] ∧
    mapLookup [("web", -1)] "web" = some (-1) ∧ (-1 : Int) < 0 :=
  ⟨rfl, rfl, by decide⟩

/-- C8 amended: every replica count stored in a scale map the handler
accepts is an integer of the signed 64-bit range `strconv.Atoi`
accepts; it may be negative.  The accepted map is exactly what the
single scale call receives. -/
theorem projectScale_counts_range (p : ProjectOracle) (c : Context)
    (m : List (String × Int)) (h : buildScaleMap c.args [] = .ok m) :
    (projectScale p c).calls = [.scale (c.intFlag "timeout") m] ∧
    ∀ q ∈ m, -(2 ^ 63) ≤ q.2 ∧ q.2 < 2 ^ 63 := by
  constructor
  · rcases hs : p.scale (c.intFlag "timeout") m with _ | e <;>
      simp [projectScale, h, hs]
  · refine buildScaleMap_range c.args [] m ?_ h
    intro q hq
    exact absurd hq (List.not_mem_nil q)

/-- Witness for the amended C8 at a concrete argument list carrying a
negative count. -/
theorem projectScale_counts_range_witness :
    buildScaleMap ["web=-1"] [] = .ok [("web", -1)] ∧
    ∀ q ∈ [(("web" : String), (-1 : Int))], -(2 ^ 63) ≤ q.2 ∧ q.2 < 2 ^ 63 :=
  ⟨rfl,
    (projectScale_counts_range okOracle (mkCtxT ["web=-1"] 10)
      [("web", -1)] rfl).2⟩

/-- The last element of a list is one of its members. -/
theorem mem_of_getLast_some (l : List String) (x : String)
    (h : l.getLast? = some x) : x ∈ l := by
  have hx : x ∈ l.getLast? := by rw [h]; rfl
  obtain ⟨hne, hxe⟩ := List.mem_getLast?_eq_getLast hx
  rw [hxe]
  exact List.getLast_mem hne

/-- A token the scale handler accepts splits at `=` into a name and a
count `strconv.Atoi` accepts. -/
theorem wellformed_parse (t : String) (h : malformedScaleToken t = false) :
    ∃ n cs v, splitEq2 t = [n, cs] ∧ goAtoi cs = .ok v := by
  rcases splitEq2_shape t with ⟨x, hsp⟩ | ⟨n, cs, hsp⟩
  · exfalso
    unfold malformedScaleToken at h
    rw [hsp] at h
    simp at h
  · rcases hg : goAtoi cs with err | v
    · exfalso
      unfold malformedScaleToken at h
      rw [hsp] at h
      simp [hg, Except.isOk, Except.toBool] at h
    · exact ⟨n, cs, v, hsp, hg⟩

/-- On a well-formed token list, a service name with no last count has no
token at all. -/
theorem lastCountFor_none (rest : List String) (name : String)
    (h : ∀ t ∈ rest, malformedScaleToken t = false)
    (hn : lastCountFor rest name = none) :
    rest.filter (fun t => tokName t = some name) = [] := by
  rcases hl : (rest.filter fun t => tokName t = some name).getLast? with _ | t
  · exact List.getLast?_eq_none_iff.mp hl
  · exfalso
    have htf := mem_of_getLast_some _ t hl
    have htr : t ∈ rest := List.mem_of_mem_filter htf
    obtain ⟨n, cs, v, hsp, hg⟩ := wellformed_parse t (h t htr)
    have hc : tokCount t = some v := by
      unfold tokCount
      rw [hsp]
      simp [hg, Except.toOption]
    unfold lastCountFor at hn
    rw [hl] at hn
    simp [hc] at hn

/-- Lookup after the overwriting assignment: the new binding at the
assigned key, the old map elsewhere. -/
theorem mapLookup_insert (m : List (String × Int)) (k k2 : String) (v : Int) :
    mapLookup (mapInsert m k v) k2 =
      if k2 = k then some v else mapLookup m k2 := by
  induction m with
  | nil =>
    by_cases h : k2 = k
    · simp [mapInsert, mapLookup, List.find?, h]
    · have h2 : ¬ k = k2 := fun hh => h hh.symm
      simp [mapInsert, mapLookup, List.find?, h, h2]
  | cons q m ih =>
    by_cases hqk : q.1 = k
    · have h1 : mapInsert (q :: m) k v = mapInsert m k v := by
        simp [mapInsert, List.filter_cons, hqk]
      rw [h1, ih]
      by_cases h : k2 = k
      · rw [if_pos h, if_pos h]
      · rw [if_neg h, if_neg h]
        have hq2 : ¬ q.1 = k2 := by
          rw [hqk]
          exact fun hh => h hh.symm
        simp [mapLookup, List.find?, hq2]
    · have h1 : mapInsert (q :: m) k v = q :: mapInsert m k v := by
        simp [mapInsert, List.filter_cons, hqk]
      rw [h1]
      by_cases hq2 : q.1 = k2
      · have h2k : ¬ k2 = k := fun hh => hqk (by rw [hq2, hh])
        rw [if_neg h2k]
        simp [mapLookup, List.find?, hq2]
      · have h2 : mapLookup (q :: mapInsert m k v) k2 =
            mapLookup (mapInsert m k v) k2 := by
          simp [mapLookup, List.find?, hq2]
        rw [h2, ih]
        by_cases h : k2 = k
        · rw [if_pos h, if_pos h]
        · rw [if_neg h, if_neg h]
          simp [mapLookup, List.find?, hq2]

/-- The scale-token loop on a well-formed list succeeds, and each name
looks up to the count of its last token, falling back to the initial
map for names no token bears. -/
theorem buildScaleMap_lookup :
    ∀ (args : List String) (m0 : List (String × Int)),
      (∀ t ∈ args, malformedScaleToken t = false) →
      ∃ m, buildScaleMap args m0 = .ok m ∧
        ∀ name, mapLookup m name =
          optOr (lastCountFor args name) (mapLookup m0 name) := by
  intro args
  induction args with
  | nil =>
    intro m0 _
    exact ⟨m0, rfl, fun name => rfl⟩
  | cons a rest ih =>
    intro m0 h
    obtain ⟨n, cs, v, hsp, hg⟩ :=
      wellformed_parse a (h a (List.mem_cons_self a rest))
    rw [buildScaleMap_cons_okCount a n cs v rest m0 hsp hg]
    obtain ⟨m, hm, hlook⟩ :=
      ih (mapInsert m0 n v) (fun t ht => h t (List.mem_cons_of_mem a ht))
    refine ⟨m, hm, fun name => ?_⟩
    rw [hlook name, mapLookup_insert]
    have hname : tokName a = some n := by
      unfold tokName
      rw [hsp]
    have hcount : tokCount a = some v := by
      unfold tokCount
      rw [hsp]
      simp [hg, Except.toOption]
    by_cases hnn : name = n
    · subst hnn
      rw [if_pos rfl]
      have hfa : (a :: rest).filter (fun t => tokName t = some name) =
          a :: rest.filter (fun t => tokName t = some name) := by
        simp [List.filter_cons, hname]
      rcases hLR : lastCountFor rest name with _ | w
      · have hfr := lastCountFor_none rest name
          (fun t ht => h t (List.mem_cons_of_mem a ht)) hLR
        have hla : lastCountFor (a :: rest) name = some v := by
          unfold lastCountFor
          rw [hfa, hfr]
          simp [hcount]
        rw [hla]
        rfl
      · have hfr : rest.filter (fun t => tokName t = some name) ≠ [] := by
          intro hc
          unfold lastCountFor at hLR
          rw [hc] at hLR
          simp at hLR
        have hla : lastCountFor (a :: rest) name = some w := by
          unfold lastCountFor at hLR ⊢
          rw [hfa]
          rcases hfl : rest.filter (fun t => tokName t = some name) with _ | ⟨b, bs⟩
          · exact absurd hfl hfr
          · rw [hfl] at hLR
            rw [List.getLast?_cons_cons]
            exact hLR
        rw [hla]
        rfl
    · rw [if_neg hnn]
      have hfa : (a :: rest).filter (fun t => tokName t = some name) =
          rest.filter (fun t => tokName t = some name) := by
        have hno : ¬ (tokName a = some name) := by
          rw [hname]
          intro hh
          exact hnn (Option.some.inj hh).symm
        simp [List.filter_cons, hno]
      unfold lastCountFor
      rw [hfa]

/-- C7: on a list of well-formed `name=count` tokens the scale handler's
map sends every service name to the count of the last token bearing
that name — duplicate names overwrite silently, last wins — and that
map is what the single scale call receives. -/
theorem projectScale_lastWins (p : ProjectOracle) (c : Context)
    (h : ∀ t ∈ c.args, malformedScaleToken t = false) :
    ∃ m, buildScaleMap c.args [] = .ok m ∧
      (∀ name, mapLookup m name = lastCountFor c.args name) ∧
      (projectScale p c).calls = [.scale (c.intFlag "timeout") m] := by
  obtain ⟨m, hm, hlook⟩ := buildScaleMap_lookup c.args [] h
  refine ⟨m, hm, fun name => ?_, ?_⟩
  · rw [hlook name]
    rcases hL : lastCountFor c.args name with _ | w <;> rfl
  · rcases hs : p.scale (c.intFlag "timeout") m with _ | e <;>
      simp [projectScale, hm, hs]

/-- Witness for C7: duplicate tokens for `web`, where the map holds only
the later count. -/
theorem projectScale_lastWins_witness :
    (∀ t ∈ (mkCtx ["web=1", "web=3"]).args, malformedScaleToken t = false) ∧
    (∃ m, buildScaleMap (mkCtx ["web=1", "web=3"]).args [] = .ok m ∧
      (∀ name, mapLookup m name =
        lastCountFor (mkCtx ["web=1", "web=3"]).args name) ∧
      (projectScale okOracle (mkCtx ["web=1", "web=3"])).calls =
        [.scale ((mkCtx ["web=1", "web=3"]).intFlag "timeout") m]) ∧
    buildScaleMap ["web=1", "web=3"] [] = .ok [("web", 3)] :=
  ⟨by decide,
    projectScale_lastWins okOracle (mkCtx ["web=1", "web=3"]) (by decide),
    by decide⟩

end Compose
